import Mathlib

/-!
Verification of the BMTrain LAMB optimizer (`src/bmtrain/optim/lamb.py`) and the
`NoDecay` learning-rate scheduler (`src/bmtrain/lr_scheduler/no_decay.py`).

The Python code is shallowly embedded over exact rational arithmetic:
tensors become `List ℚ`, the per-parameter optimizer state dictionary becomes
`Option PState` (the `None` case models `len(state) == 0`), and a raised Python
exception becomes a `StepResult.err` that carries the optimizer state exactly as
mutated at the raise point (Python mutations performed before a `raise` persist).
The floating-point operation `x ** 0.5` and the element-wise square root inside
the fused kernel are modelled by an arbitrary function `rt : ℚ → ℚ` supplied by
the environment, so every statement proved about the step protocol holds for any
square-root implementation.

The collective transport (`nccl.allReduce`) is external infrastructure consumed
by the code; it is modelled by a `CommEnv` that supplies the other workers'
contributions: a MAX-reduce of the overflow flag becomes `||` with the other
workers' combined flag, and each SUM-reduce of a (numerator, denominator) pair
adds the other workers' combined partial sums for that parameter.
-/

set_option autoImplicit false

namespace BMTrain

/-- A gradient tensor (`p.grad`).  `vals` are its elements, `is_sparse` models
`p.grad.is_sparse`, and `has_inf_nan` models the presence of an infinite or NaN
element (the condition detected by `adam_cuda.f_has_inf_nan`), which is not
representable in exact rational values and is therefore carried as a flag. -/
structure Grad where
  vals : List ℚ
  is_sparse : Bool
  has_inf_nan : Bool
deriving DecidableEq

/-- A parameter tensor `p`: its (reduced-precision) working data and its
optional gradient (`p.grad is None` ⇔ `grad = none`). -/
structure Param where
  data : List ℚ
  grad : Option Grad
deriving DecidableEq

/-- The per-parameter optimizer state `self.state[p]` once initialized:
the keys `step`, `exp_avg` (momentum, fp16), `exp_avg_sq` (variance, fp32)
and `param_fp32` (the full-precision master copy). -/
structure PState where
  step : ℕ
  exp_avg : List ℚ
  exp_avg_sq : List ℚ
  param_fp32 : List ℚ
deriving DecidableEq

/-- A parameter together with its optimizer state slot.
`state = none` models `len(self.state[p]) == 0` (lazy initialization pending). -/
structure PEntry where
  param : Param
  state : Option PState
deriving DecidableEq

/-- One entry of `self.param_groups`: the group hyperparameters
(`lr`, `betas`, `eps`, `weight_decay`) and the group's parameters. -/
structure ParamGroup where
  lr : ℚ
  beta1 : ℚ
  beta2 : ℚ
  eps : ℚ
  weight_decay : ℚ
  params : List PEntry
deriving DecidableEq

/-- The `LambOptimizer` instance state: `self.param_groups`, `self._scale`,
`self._steps_since_last_scale` and `self._hold_steps`. -/
structure LambOptimizer where
  param_groups : List ParamGroup
  scale : ℚ
  steps_since_last_scale : ℕ
  hold_steps : ℕ
deriving DecidableEq

/-- The environment a `step` call runs in: whether `"comm" in config`, the
other workers' combined overflow flag (their MAX), per reduced parameter the
sum of the other workers' (numerator, denominator) partial sums, and the
square-root function modelling `** 0.5` / the kernel's element-wise sqrt. -/
structure CommEnv where
  comm : Bool
  othersFlag : Bool
  others : ℕ → ℚ × ℚ
  rt : ℚ → ℚ

/-- The exceptions `step` can raise: `OverflowError("Gradient overflow")`,
`RuntimeError` for sparse gradients, and the `KeyError` from the unguarded
`config["comm"]` lookup in the update loop. -/
inductive StepError where
  | gradientOverflow
  | unsupportedGradientLayout
  | missingComm
deriving DecidableEq

/-- Outcome of a `step` call: a normal return carrying the closure's result
(`loss`) and the final optimizer state, or a raised exception together with the
optimizer state exactly as mutated when the exception was raised. -/
inductive StepResult where
  | ok (loss : Option ℚ) (st : LambOptimizer)
  | err (e : StepError) (st : LambOptimizer)
deriving DecidableEq

/-- The optimizer state carried by a step outcome. -/
def StepResult.state : StepResult → LambOptimizer
  | .ok _ st => st
  | .err _ st => st

/-- The exception carried by a step outcome, if any. -/
def StepResult.errOf : StepResult → Option StepError
  | .ok _ _ => none
  | .err e _ => some e

/-- `torch.zeros(n)`. -/
def zeros (n : ℕ) : List ℚ := List.replicate n 0

/-- The `1e-10` safety constant of `lamb.py` line 122, exact. -/
def eps_safety : ℚ := 1 / 10 ^ 10

/-- Modelled from the spec: the fused `lamb_cuda.f_lamb_prepare` kernel is not
under `src/` (only its call site is).  Per spec §4.4 step 5 it computes, from
`master`, `working`, `gradient`, `momentum`, `variance` and the scalars, the
updated `momentum = beta1*m + (1-beta1)*g/scale`, the updated
`variance = beta2*v + (1-beta2)*(g/scale)^2`, the bias-corrected update
direction `u` combining momentum/variance with weight decay applied to the
master copy, and the local partial sums `numerator = sum of master^2` and
`denominator = sum of u^2`.  Returns `(momentum, variance, u, numer, denom)`.
The candidate learning rate `lr` is among the kernel's inputs as in the source
call, although none of the five outputs depends on it. -/
def f_lamb_prepare (rt : ℚ → ℚ) (param_fp32 p grad exp_avg exp_avg_sq : List ℚ)
    (beta1 beta2 eps lr scale weight_decay : ℚ) (step : ℕ) :
    List ℚ × List ℚ × List ℚ × ℚ × ℚ :=
  let _ := p
  let _ := lr
  let g := grad.map (fun x => x / scale)
  let m := List.zipWith (fun mi gi => beta1 * mi + (1 - beta1) * gi) exp_avg g
  let v := List.zipWith (fun vi gi => beta2 * vi + (1 - beta2) * gi ^ 2) exp_avg_sq g
  let mhat := m.map (fun x => x / (1 - beta1 ^ step))
  let vhat := v.map (fun x => x / (1 - beta2 ^ step))
  let u := List.zipWith (fun t x => t + weight_decay * x)
    (List.zipWith (fun mh vh => mh / (rt vh + eps)) mhat vhat) param_fp32
  let numer := (param_fp32.map (fun x => x ^ 2)).sum
  let denom := (u.map (fun x => x ^ 2)).sum
  (m, v, u, numer, denom)

/-- Modelled from the spec: the `adam_cuda.f_adam` kernel is not under `src/`.
Per spec §4.4 step 8 the apply phase, given the prepare outputs and the
now-global effective learning rate, writes back the updated momentum and
variance, updates `master += -lr_eff * u`, and casts the master copy into the
working copy (the cast is the identity in this exact-arithmetic model).
Returns `(master, working, exp_avg, exp_avg_sq)`. -/
def f_adam (param_fp32 u m v : List ℚ) (lr_eff : ℚ) :
    List ℚ × List ℚ × List ℚ × List ℚ :=
  let master := List.zipWith (fun x ui => x - lr_eff * ui) param_fp32 u
  (master, master, m, v)

/-- The state read by the update loop after lazy initialization
(`lamb.py` lines 89-97): the stored state if present, otherwise fresh state
with `step = 0`, zero momentum and variance, and the master copy initialized
from the working copy (`state['param_fp32'].copy_(p)`). -/
def initState (e : PEntry) : PState :=
  match e.state with
  | some st => st
  | none => ⟨0, zeros e.param.data.length, zeros e.param.data.length, e.param.data⟩

/-- The per-parameter state right after `state['step'] += 1` (line 100). -/
def stepInitState (e : PEntry) : PState :=
  { initState e with step := (initState e).step + 1 }

/-- The candidate learning rate
`_lr = 0.0 if state["step"] <= self._hold_steps else group['lr']` (line 104). -/
def candidateLR (g : ParamGroup) (hold_steps : ℕ) (e : PEntry) : ℚ :=
  if (stepInitState e).step ≤ hold_steps then 0 else g.lr

/-- Modelled from the spec (§4.4 step 7): the effective learning rate
`lr_eff = candidate_lr * sqrt(numerator / (denominator + eps_safety))`, stated
with the abstract square root `rt`.  The code realizes it on line 122 as
`_lr = _lr * (numer[0]/(denom[0]+1e-10))**0.5`. -/
def lr_eff_spec (rt : ℚ → ℚ) (candidate numer denom : ℚ) : ℚ :=
  candidate * rt (numer / (denom + eps_safety))

/-- One iteration of the per-parameter update loop of `LambOptimizer.step`
(`lamb.py` lines 83-136), in source order: skip parameters without a gradient,
raise on a sparse gradient, lazily initialize the state, increment
`state['step']`, compute the candidate learning rate, run the prepare kernel,
perform the two SUM all-reduces (which read the unguarded `config["comm"]`,
raising a `KeyError` when absent), compute the effective learning rate, and run
the apply kernel.  `idx` counts how many reduced parameters precede this one,
selecting the other workers' contribution `env.others idx`.  On an error the
returned entry carries exactly the mutations already performed at the raise
point. -/
def stepEntry (g : ParamGroup) (scale : ℚ) (hold_steps : ℕ) (env : CommEnv)
    (idx : ℕ) (e : PEntry) : PEntry × ℕ × Option StepError :=
  match e.param.grad with
  | none => (e, idx, none)
  | some gr =>
    if gr.is_sparse then (e, idx, some .unsupportedGradientLayout)
    else
      let st1 := stepInitState e
      let lr0 := candidateLR g hold_steps e
      match f_lamb_prepare env.rt st1.param_fp32 e.param.data gr.vals st1.exp_avg
          st1.exp_avg_sq g.beta1 g.beta2 g.eps lr0 scale g.weight_decay st1.step with
      | (m, v, u, numer, denom) =>
        if env.comm then
          let numer' := numer + (env.others idx).1
          let denom' := denom + (env.others idx).2
          let lr_eff := lr0 * env.rt (numer' / (denom' + eps_safety))
          match f_adam st1.param_fp32 u m v lr_eff with
          | (master', working', m', v') =>
            (⟨⟨working', some gr⟩, some ⟨st1.step, m', v', master'⟩⟩, idx + 1, none)
        else
          ({ e with state := some st1 }, idx, some .missingComm)

/-- The inner `for p in group['params']` loop: processes entries in order,
stopping at the first raised exception and leaving the remaining entries
untouched.  Threads the reduced-parameter counter. -/
def stepParams (g : ParamGroup) (scale : ℚ) (hold_steps : ℕ) (env : CommEnv) :
    List PEntry → ℕ → List PEntry × ℕ × Option StepError
  | [], idx => ([], idx, none)
  | e :: rest, idx =>
    match stepEntry g scale hold_steps env idx e with
    | (e', idx', some er) => (e' :: rest, idx', some er)
    | (e', idx', none) =>
      match stepParams g scale hold_steps env rest idx' with
      | (out, idx'', er) => (e' :: out, idx'', er)

/-- The outer `for group in self.param_groups` loop of the update phase. -/
def stepGroups (scale : ℚ) (hold_steps : ℕ) (env : CommEnv) :
    List ParamGroup → ℕ → List ParamGroup × ℕ × Option StepError
  | [], idx => ([], idx, none)
  | g :: rest, idx =>
    match stepParams g scale hold_steps env g.params idx with
    | (ps, idx', some er) => ({ g with params := ps } :: rest, idx', some er)
    | (ps, idx', none) =>
      match stepGroups scale hold_steps env rest idx' with
      | (out, idx'', er) => ({ g with params := ps } :: out, idx'', er)

/-- The local overflow scan (`lamb.py` lines 66-70): `f_has_inf_nan` is folded
over every gradient of every group, so the local flag is set iff some defined
gradient contains an infinite or NaN element. -/
def localOverflow (opt : LambOptimizer) : Bool :=
  opt.param_groups.any (fun g => g.params.any (fun e =>
    match e.param.grad with
    | some gr => gr.has_inf_nan
    | none => false))

/-- The overflow flag tested on line 75: the MAX all-reduce of the local flag is
performed only when `"comm" in config` (lines 72-73); otherwise the local flag
is used as is. -/
def groupOverflow (opt : LambOptimizer) (env : CommEnv) : Bool :=
  if env.comm then localOverflow opt || env.othersFlag else localOverflow opt

/-- `LambOptimizer.step(closure)` (`lamb.py` lines 51-138).  The closure is
evaluated first and its result (`loss`) is an input of the model; then the
overflow scan, the guarded MAX-reduce, the `OverflowError` raise, the increment
of `_steps_since_last_scale`, and the update loops.  A raised exception yields
`.err` carrying the optimizer state as mutated at the raise point. -/
def LambOptimizer.step (opt : LambOptimizer) (loss : Option ℚ) (env : CommEnv) :
    StepResult :=
  if groupOverflow opt env then .err .gradientOverflow opt
  else
    let opt1 := { opt with steps_since_last_scale := opt.steps_since_last_scale + 1 }
    match stepGroups opt.scale opt.hold_steps env opt.param_groups 0 with
    | (gs, _, some er) => .err er { opt1 with param_groups := gs }
    | (gs, _, none) => .ok loss { opt1 with param_groups := gs }

/-- The body of `justify_scale` applied to one parameter entry: initialized
states have `exp_avg` and `exp_avg_sq` multiplied by `delta`, uninitialized
entries (`len(state) == 0`) are left alone. -/
def justifyEntry (delta : ℚ) (e : PEntry) : PEntry :=
  match e.state with
  | none => e
  | some st =>
    { e with state := some { st with
        exp_avg := st.exp_avg.map (fun x => x * delta),
        exp_avg_sq := st.exp_avg_sq.map (fun x => x * delta) } }

/-- `LambOptimizer.justify_scale(scale)` (`lamb.py` lines 39-49): computes
`delta = scale / self._scale`, sets `self._scale = scale`, multiplies every
initialized state's `exp_avg` and `exp_avg_sq` by `delta`, and resets
`self._steps_since_last_scale = 0`. -/
def LambOptimizer.justify_scale (opt : LambOptimizer) (scale : ℚ) : LambOptimizer :=
  let delta := scale / opt.scale
  { opt with
    scale := scale
    steps_since_last_scale := 0
    param_groups := opt.param_groups.map (fun g =>
      { g with params := g.params.map (justifyEntry delta) }) }

/-- The `ValueError`s of `LambOptimizer.__init__` (`lamb.py` lines 12-21),
in source order. -/
inductive InitError where
  | invalidLearningRate
  | invalidEps
  | invalidBeta0
  | invalidBeta1
  | invalidWeightDecay
deriving DecidableEq

/-- `LambOptimizer.__init__` (`lamb.py` lines 11-29): validates `lr ≥ 0`,
`eps ≥ 0`, `0 ≤ beta1 < 1`, `0 ≤ beta2 < 1`, `weight_decay ≥ 0` — and nothing
about `scale` — then builds the instance with one parameter group holding the
given parameters (no state yet), `self._scale = scale`,
`self._steps_since_last_scale = 0` and `self._hold_steps = hold_steps`. -/
def LambOptimizer.init (params : List Param) (lr beta1 beta2 eps weight_decay scale : ℚ)
    (hold_steps : ℕ) : Except InitError LambOptimizer :=
  if ¬ 0 ≤ lr then .error .invalidLearningRate
  else if ¬ 0 ≤ eps then .error .invalidEps
  else if ¬ (0 ≤ beta1 ∧ beta1 < 1) then .error .invalidBeta0
  else if ¬ (0 ≤ beta2 ∧ beta2 < 1) then .error .invalidBeta1
  else if ¬ 0 ≤ weight_decay then .error .invalidWeightDecay
  else .ok
    { param_groups := [⟨lr, beta1, beta2, eps, weight_decay,
        params.map (fun p => ⟨p, none⟩)⟩]
      scale := scale
      steps_since_last_scale := 0
      hold_steps := hold_steps }

/-- An operation performed on an optimizer instance after construction; on a
`step` the state carried by the outcome (normal or exceptional) is kept. -/
inductive LambOp where
  | stepOp (loss : Option ℚ) (env : CommEnv)
  | justifyOp (scale : ℚ)

/-- Runs a sequence of operations, threading the optimizer state. -/
def runOps (opt : LambOptimizer) : List LambOp → LambOptimizer
  | [] => opt
  | .stepOp loss env :: rest => runOps (opt.step loss env).state rest
  | .justifyOp s :: rest => runOps (opt.justify_scale s) rest

/-- Every `justify_scale` argument in the sequence is positive. -/
def opsPositive : List LambOp → Prop
  | [] => True
  | .stepOp _ _ :: rest => opsPositive rest
  | .justifyOp s :: rest => 0 < s ∧ opsPositive rest

/-- Well-formedness of a parameter entry, as maintained along reachable states
(spec §3: the four tensors share the working copy's shape, and in exact
arithmetic the master copy coincides with the working copy it shadows):
a defined gradient has the working copy's length, and an initialized state has
momentum and variance of that length and a master copy equal to the working
copy. -/
def entryWF (e : PEntry) : Bool :=
  (match e.param.grad with
   | some gr => gr.vals.length == e.param.data.length
   | none => true) &&
  (match e.state with
   | some st => st.exp_avg.length == e.param.data.length &&
       (st.exp_avg_sq.length == e.param.data.length &&
        st.param_fp32 == e.param.data)
   | none => true)

/-- `e'` is the result of the loop body applied to `e` (at some reduction slot)
without an exception. -/
def entryStepRel (g : ParamGroup) (scale : ℚ) (hold : ℕ) (env : CommEnv)
    (e e' : PEntry) : Prop :=
  ∃ j r, stepEntry g scale hold env j e = (e', r, none)

/-- `g'` is the result of a clean pass of the inner loop over `g`. -/
def groupStepRel (scale : ℚ) (hold : ℕ) (env : CommEnv)
    (g g' : ParamGroup) : Prop :=
  ∃ ps, g' = { g with params := ps } ∧
    List.Forall₂ (entryStepRel g scale hold env) g.params ps

/-- The prepare-kernel call of the update loop, as invoked on an entry with
gradient `gr`: inputs are the lazily initialized state after the `step`
increment and the group's hyperparameters. -/
def prepOf (g : ParamGroup) (scale : ℚ) (hold : ℕ) (rt : ℚ → ℚ) (e : PEntry)
    (gr : Grad) : List ℚ × List ℚ × List ℚ × ℚ × ℚ :=
  f_lamb_prepare rt (stepInitState e).param_fp32 e.param.data gr.vals
    (stepInitState e).exp_avg (stepInitState e).exp_avg_sq g.beta1 g.beta2 g.eps
    (candidateLR g hold e) scale g.weight_decay (stepInitState e).step

/-- The effective learning rate the update loop computes for an entry with
gradient `gr` at reduction slot `idx`, as on `lamb.py` line 122: the candidate
rate times the square root of the SUM-reduced numerator over the SUM-reduced
denominator plus the safety constant. -/
def lrEffOf (g : ParamGroup) (scale : ℚ) (hold : ℕ) (env : CommEnv) (idx : ℕ)
    (e : PEntry) (gr : Grad) : ℚ :=
  candidateLR g hold e * env.rt
    (((prepOf g scale hold env.rt e gr).2.2.2.1 + (env.others idx).1) /
      ((prepOf g scale hold env.rt e gr).2.2.2.2 + (env.others idx).2 + eps_safety))

/-- The master copy the apply kernel writes for an entry with gradient `gr`:
`master - lr_eff * u` element-wise. -/
def masterOf (g : ParamGroup) (scale : ℚ) (hold : ℕ) (env : CommEnv) (idx : ℕ)
    (e : PEntry) (gr : Grad) : List ℚ :=
  List.zipWith (fun x ui => x - lrEffOf g scale hold env idx e gr * ui)
    (stepInitState e).param_fp32 (prepOf g scale hold env.rt e gr).2.2.1

/-- The `WarmupLRScheduler` subclass `NoDecay`
(`src/bmtrain/lr_scheduler/no_decay.py`): `start_lr` and `warmup_iter` come
from the base class. -/
structure NoDecay where
  start_lr : ℚ
  warmup_iter : ℕ

/-- `NoDecay.get_lr_warmpup` (sic, source spelling):
`self.start_lr * num_iter / self.warmup_iter`. -/
def NoDecay.get_lr_warmpup (s : NoDecay) (num_iter : ℕ) : ℚ :=
  s.start_lr * num_iter / s.warmup_iter

/-- `NoDecay.get_lr_decay`: constantly `self.start_lr`. -/
def NoDecay.get_lr_decay (s : NoDecay) (num_iter : ℕ) : ℚ :=
  let _ := num_iter
  s.start_lr

/-- Modelled from the spec: the `WarmupLRScheduler` base class is not under
`src/`.  Per spec §6 the scheduler is a pure function of the iteration count
that follows the warmup curve during the first `warmup_iter` iterations and the
post-warmup policy afterwards. -/
def NoDecay.get_lr (s : NoDecay) (num_iter : ℕ) : ℚ :=
  if num_iter < s.warmup_iter then s.get_lr_warmpup num_iter
  else s.get_lr_decay num_iter

/-! ### Concrete instances used by witnesses and counterexamples -/

/-- A dense, finite gradient with one element `4`. -/
def denseGrad : Grad := ⟨[4], false, false⟩

/-- A sparse gradient. -/
def sparseGrad : Grad := ⟨[1], true, false⟩

/-- A second sparse gradient (distinct values). -/
def sparseGrad2 : Grad := ⟨[3], true, false⟩

/-- A dense gradient containing an infinite or NaN element. -/
def infGrad : Grad := ⟨[1], false, true⟩

/-- An environment with a communicator configured and trivial peers. -/
def envComm : CommEnv := ⟨true, false, fun _ => (0, 0), fun _ => 0⟩

/-- An environment with a communicator whose peers report an overflow. -/
def envCommFlag : CommEnv := ⟨true, true, fun _ => (0, 0), fun _ => 0⟩

/-- A configuration without `"comm"`. -/
def envNoComm : CommEnv := ⟨false, false, fun _ => (0, 0), fun _ => 0⟩

/-- A parameter entry holding working value `[2]` and the dense gradient. -/
def denseEntry : PEntry := ⟨⟨[2], some denseGrad⟩, none⟩

/-- A parameter entry holding a sparse gradient. -/
def sparseEntry : PEntry := ⟨⟨[1], some sparseGrad⟩, none⟩

/-- A parameter group holding only `denseEntry`. -/
def holdGroup : ParamGroup := ⟨1, 0, 0, 1, 0, [denseEntry]⟩

/-- One finite-gradient parameter, uninitialized state, `hold_steps = 1`. -/
def optHold : LambOptimizer := ⟨[holdGroup], 2, 0, 1⟩

/-- The state `optHold.step` produces (hand-computed with `rt = fun _ => 0`). -/
def optHoldStepped : LambOptimizer :=
  ⟨[⟨1, 0, 0, 1, 0, [⟨⟨[2], some denseGrad⟩, some ⟨1, [2], [4], [2]⟩⟩]⟩], 2, 1, 1⟩

/-- One sparse-gradient parameter. -/
def optSparse : LambOptimizer :=
  ⟨[⟨1, 0, 0, 1, 0, [sparseEntry]⟩], 1, 0, 0⟩

/-- One sparse-gradient parameter (distinct instance for a distinct claim). -/
def optSparse2 : LambOptimizer :=
  ⟨[⟨1, 0, 0, 1, 0, [⟨⟨[5], some sparseGrad2⟩, none⟩]⟩], 1, 3, 0⟩

/-- A parameter group with a dense-gradient parameter followed by a
sparse-gradient parameter. -/
def denseSparseGroup : ParamGroup := ⟨1, 0, 0, 1, 0, [denseEntry, sparseEntry]⟩

/-- A dense-gradient parameter followed by a sparse-gradient parameter. -/
def optDenseSparse : LambOptimizer := ⟨[denseSparseGroup], 2, 0, 0⟩

/-- One parameter whose gradient contains an infinity or NaN. -/
def optInf : LambOptimizer :=
  ⟨[⟨1, 0, 0, 1, 0, [⟨⟨[1], some infGrad⟩, none⟩]⟩], 1, 0, 0⟩

/-- One parameter whose gradient contains an infinity or NaN (distinct). -/
def optInf2 : LambOptimizer :=
  ⟨[⟨2, 0, 0, 1, 0, [⟨⟨[7], some infGrad⟩, none⟩]⟩], 4, 2, 0⟩

/-- An optimizer with `scale = 2` and one initialized parameter state. -/
def optScaled : LambOptimizer :=
  ⟨[⟨1, 0, 0, 1, 0, [⟨⟨[2], none⟩, some ⟨3, [5], [7], [2]⟩⟩]⟩], 2, 4, 0⟩

/-! ### Helper lemmas -/

/-- Zipping a list with anything under the left projection returns the list,
provided the right list is at least as long. -/
theorem zipWith_left_eval {α β : Type} (f : α → β → α) (hf : ∀ a b, f a b = a) :
    ∀ (l : List α) (u : List β), l.length ≤ u.length → List.zipWith f l u = l := by
  intro l
  induction l with
  | nil => intro u _; simp
  | cons a t ih =>
    intro u hu
    cases u with
    | nil => simp at hu
    | cons b ub =>
      simp only [List.zipWith_cons_cons, hf]
      simp only [List.length_cons, Nat.add_le_add_iff_right] at hu
      rw [ih ub hu]

/-! ### Claim C1 -/

/-- Claim C1: whenever the group-wide MAX-reduced overflow flag is nonzero, the
step terminates with the `GradientOverflow` outcome and carries the optimizer
state completely unchanged — every parameter's `step_count`, master copy,
momentum and variance, as well as `steps_since_last_scale` and the scale
factor, are those of the input state. -/
theorem step_overflow_no_mutation (opt : LambOptimizer) (loss : Option ℚ)
    (env : CommEnv) (hcomm : env.comm = true)
    (hflag : (localOverflow opt || env.othersFlag) = true) :
    opt.step loss env = .err .gradientOverflow opt := by
  simp [LambOptimizer.step, groupOverflow, hcomm, hflag]

/-- Witness for C1 at a concrete input: a worker with finite local gradients
whose peer reports an overflow aborts with an unchanged state. -/
theorem step_overflow_no_mutation_witness :
    optHold.step (some 5) envCommFlag = .err .gradientOverflow optHold :=
  step_overflow_no_mutation optHold (some 5) envCommFlag rfl
    (by simp [localOverflow, envCommFlag])

/-! ### Claim C4 (corrected) -/

/-- Counterexample to C4 as stated: on a sparse gradient the step terminates
with `UnsupportedGradientLayout`, a third outcome that is neither `OK` nor
`ABORTED_OVERFLOW`, and the closure's result (`some 5`) is not returned. -/
theorem step_return_counterexample :
    (optSparse.step (some 5) envComm).errOf = some .unsupportedGradientLayout ∧
    (optSparse.step (some 5) envComm).errOf ≠ some .gradientOverflow ∧
    (optSparse.step (some 5) envComm).errOf ≠ none := by
  refine ⟨?_, ?_, ?_⟩ <;>
    simp [LambOptimizer.step, stepGroups, stepParams, stepEntry, groupOverflow,
      localOverflow, StepResult.errOf, optSparse, sparseEntry, envComm, sparseGrad]

/-- Claim C4 (amended): the step either terminates with an error — in which
case the closure's result is not part of the outcome — or returns normally, and
a normal return carries exactly the closure's result as its value. -/
theorem step_returns_closure_result (opt : LambOptimizer) (loss : Option ℚ)
    (env : CommEnv) :
    (∃ e st, opt.step loss env = .err e st) ∨
      opt.step loss env = .ok loss ((opt.step loss env).state) := by
  unfold LambOptimizer.step
  by_cases h : groupOverflow opt env
  · exact Or.inl ⟨.gradientOverflow, opt, by simp [h]⟩
  · rcases hsg : stepGroups opt.scale opt.hold_steps env opt.param_groups 0 with
      ⟨gs, ix, er⟩
    cases er with
    | none => right; simp [h, hsg, StepResult.state]
    | some e =>
      exact Or.inl ⟨e, { opt with
        steps_since_last_scale := opt.steps_since_last_scale + 1,
        param_groups := gs }, by simp [h, hsg]⟩

/-! ### Claim C6 (corrected) -/

/-- Counterexample to C6 as stated: a step that fails mid-update on a sparse
gradient has nevertheless incremented `steps_since_last_scale` (from 3 to 4),
because the increment happens before the update loop, not at `UPDATING → IDLE`. -/
theorem steps_since_rescale_counterexample :
    (optSparse2.step none envComm).errOf = some .unsupportedGradientLayout ∧
    (optSparse2.step none envComm).state.steps_since_last_scale = 4 ∧
    optSparse2.steps_since_last_scale = 3 := by
  refine ⟨?_, ?_, rfl⟩ <;>
    simp [LambOptimizer.step, stepGroups, stepParams, stepEntry, groupOverflow,
      localOverflow, StepResult.errOf, StepResult.state, optSparse2, envComm, sparseGrad2]

/-- Claim C6 (amended): `steps_since_last_scale` is incremented exactly once
per step attempt that passes the overflow check — immediately after `CHECKING`
and before the update loop — and left unchanged by an overflow abort; in
particular a step that fails mid-update has already incremented it. -/
theorem steps_since_rescale_increment (opt : LambOptimizer) (loss : Option ℚ)
    (env : CommEnv) :
    (opt.step loss env).state.steps_since_last_scale =
      (if groupOverflow opt env then opt.steps_since_last_scale
       else opt.steps_since_last_scale + 1) := by
  unfold LambOptimizer.step
  by_cases h : groupOverflow opt env
  · simp [h, StepResult.state]
  · rcases hsg : stepGroups opt.scale opt.hold_steps env opt.param_groups 0 with
      ⟨gs, ix, er⟩
    cases er <;> simp [h, hsg, StepResult.state]

/-! ### Claim C9 -/

/-- Claim C9: the `NoDecay` effective learning rate is a pure function of the
iteration count: the linear ramp `start_lr * num_iter / warmup_iter` during
warmup (0 at iteration 0, reaching `start_lr` at `warmup_iter`), and constantly
`start_lr` afterwards. -/
theorem no_decay_lr (s : NoDecay) (num_iter : ℕ) (hw : 0 < s.warmup_iter) :
    (num_iter ≤ s.warmup_iter →
      s.get_lr num_iter = s.start_lr * num_iter / s.warmup_iter) ∧
    (s.warmup_iter ≤ num_iter → s.get_lr num_iter = s.start_lr) ∧
    s.get_lr 0 = 0 ∧ s.get_lr s.warmup_iter = s.start_lr := by
  have hw' : (s.warmup_iter : ℚ) ≠ 0 := by
    exact_mod_cast Nat.pos_iff_ne_zero.mp hw
  refine ⟨fun hle => ?_, fun hge => ?_, ?_, ?_⟩
  · rcases Nat.lt_or_ge num_iter s.warmup_iter with hlt | hge
    · simp [NoDecay.get_lr, NoDecay.get_lr_warmpup, hlt]
    · have heq : num_iter = s.warmup_iter := Nat.le_antisymm hle hge
      subst heq
      simp [NoDecay.get_lr, NoDecay.get_lr_decay]
      field_simp
  · have : ¬ num_iter < s.warmup_iter := Nat.not_lt.mpr hge
    simp [NoDecay.get_lr, NoDecay.get_lr_decay, this]
  · simp [NoDecay.get_lr, NoDecay.get_lr_warmpup, hw]
  · simp [NoDecay.get_lr, NoDecay.get_lr_decay]

/-- Witness for C9 at a concrete scheduler: `base_lr = 5`, `warmup_iters = 10`,
iteration 3 sits on the ramp. -/
theorem no_decay_lr_witness : NoDecay.get_lr ⟨5, 10⟩ 3 = 5 * 3 / 10 :=
  (no_decay_lr ⟨5, 10⟩ 3 (by decide)).1 (by decide)

/-! ### Claim C5 -/

/-- Scaling a list by `d1` and then by `d2` is the identity when `d1 * d2 = 1`. -/
theorem map_mul_mul (l : List ℚ) (d1 d2 : ℚ) (h : d1 * d2 = 1) :
    (l.map (fun x => x * d1)).map (fun x => x * d2) = l := by
  rw [List.map_map]
  have hfun : ((fun x => x * d2) ∘ fun x => x * d1) = fun x : ℚ => x := by
    funext x
    simp [Function.comp, mul_assoc, h]
  rw [hfun]
  exact List.map_id' l

/-- Rescaling one entry by `d1` and then by `d2` is the identity when
`d1 * d2 = 1`. -/
theorem justifyEntry_roundtrip (e : PEntry) (d1 d2 : ℚ) (h : d1 * d2 = 1) :
    justifyEntry d2 (justifyEntry d1 e) = e := by
  rcases e with ⟨p, st⟩
  cases st with
  | none => rfl
  | some s => simp [justifyEntry, map_mul_mul _ _ _ h]

/-- Claim C5: `justify_scale` sets the scale factor to the new value and resets
`steps_since_last_scale` to 0, and — over exact arithmetic, for any nonzero
current scale (Python raises `ZeroDivisionError` on a zero one) and any
`k ≠ 0` — rescaling by `k * scale` and then back by `scale` restores every
initialized parameter's momentum and variance exactly: the whole optimizer is
restored except for the reset `steps_since_last_scale` counter. -/
theorem justify_scale_roundtrip (opt : LambOptimizer) (k : ℚ)
    (hs : opt.scale ≠ 0) (hk : k ≠ 0) :
    (opt.justify_scale (k * opt.scale)).justify_scale opt.scale =
      { opt with steps_since_last_scale := 0 } ∧
    (opt.justify_scale (k * opt.scale)).scale = k * opt.scale ∧
    (opt.justify_scale (k * opt.scale)).steps_since_last_scale = 0 := by
  have hd : (k * opt.scale / opt.scale) * (opt.scale / (k * opt.scale)) = 1 := by
    field_simp
  refine ⟨?_, rfl, rfl⟩
  simp only [LambOptimizer.justify_scale]
  have hgroups : ∀ gs : List ParamGroup,
      (gs.map (fun g => { g with
          params := g.params.map (justifyEntry (k * opt.scale / opt.scale)) })).map
        (fun g => { g with
          params := g.params.map (justifyEntry (opt.scale / (k * opt.scale))) }) = gs := by
    intro gs
    rw [List.map_map]
    have hfun : ((fun g : ParamGroup => { g with
          params := g.params.map (justifyEntry (opt.scale / (k * opt.scale))) }) ∘
        fun g : ParamGroup => { g with
          params := g.params.map (justifyEntry (k * opt.scale / opt.scale)) }) =
        fun g : ParamGroup => g := by
      funext g
      simp only [Function.comp]
      rw [List.map_map]
      have hent : ((justifyEntry (opt.scale / (k * opt.scale))) ∘
          (justifyEntry (k * opt.scale / opt.scale))) = fun e : PEntry => e := by
        funext e
        exact justifyEntry_roundtrip e _ _ hd
      rw [hent]
      cases g
      simp
    rw [hfun]
    exact List.map_id' gs
  simp [hgroups]

/-- Witness for C5 at a concrete optimizer with an initialized state:
rescaling by `3 * 2` and back by `2` restores momentum `[5]` and
variance `[7]`. -/
theorem justify_scale_roundtrip_witness :
    (optScaled.justify_scale (3 * optScaled.scale)).justify_scale optScaled.scale =
      { optScaled with steps_since_last_scale := 0 } ∧
    (optScaled.justify_scale (3 * optScaled.scale)).scale = 3 * optScaled.scale ∧
    (optScaled.justify_scale (3 * optScaled.scale)).steps_since_last_scale = 0 :=
  justify_scale_roundtrip optScaled 3 (by norm_num [optScaled]) (by norm_num)

/-! ### Claim C7 (corrected) -/

/-- Counterexample to C7 as stated: the constructor validates `lr`, `eps`, the
betas and `weight_decay` but never `scale`, so construction with the accepted
argument `scale = -1` yields a reachable state whose scale factor is negative. -/
theorem scale_positive_counterexample :
    LambOptimizer.init [] 1 (1/2) (1/2) 1 0 (-1) 0 =
      .ok ⟨[⟨1, 1/2, 1/2, 1, 0, []⟩], -1, 0, 0⟩ ∧
    ¬ 0 < (⟨[⟨1, 1/2, 1/2, 1, 0, []⟩], -1, 0, 0⟩ : LambOptimizer).scale := by
  constructor
  · simp [LambOptimizer.init]
    norm_num
  · norm_num

/-- A step never changes the scale factor, whether it returns normally or
raises. -/
theorem step_state_scale (opt : LambOptimizer) (loss : Option ℚ) (env : CommEnv) :
    (opt.step loss env).state.scale = opt.scale := by
  unfold LambOptimizer.step
  by_cases h : groupOverflow opt env
  · simp [h, StepResult.state]
  · rcases hsg : stepGroups opt.scale opt.hold_steps env opt.param_groups 0 with
      ⟨gs, ix, er⟩
    cases er <;> simp [h, hsg, StepResult.state]

/-- Claim C7 (amended): `scale_factor > 0` is conditional, not invariant — the
constructor passes the `scale` argument through unvalidated, but it holds in
every state reachable from a construction with a positive scale through any
sequence of `step` and `justify_scale` operations whose `justify_scale`
arguments are all positive (a step never changes the scale factor). -/
theorem scale_positive_conditional :
    (∀ (params : List Param) (lr b1 b2 eps wd scale : ℚ) (hold : ℕ)
        (o : LambOptimizer),
        LambOptimizer.init params lr b1 b2 eps wd scale hold = .ok o →
        o.scale = scale) ∧
    (∀ (opt : LambOptimizer) (ops : List LambOp),
        0 < opt.scale → opsPositive ops → 0 < (runOps opt ops).scale) := by
  constructor
  · intro params lr b1 b2 eps wd scale hold o h
    unfold LambOptimizer.init at h
    split_ifs at h with h1 h2 h3 h4 h5
    all_goals
      first
      | exact Except.noConfusion h
      | (simp only [Except.ok.injEq] at h; rw [← h])
  · intro opt ops
    induction ops generalizing opt with
    | nil => intro h _; exact h
    | cons op rest ih =>
      intro h hops
      cases op with
      | stepOp loss env =>
        have : 0 < ((opt.step loss env).state).scale := by
          rw [step_state_scale]; exact h
        exact ih _ this hops
      | justifyOp s =>
        have hscale : (opt.justify_scale s).scale = s := rfl
        exact ih _ (hscale ▸ hops.1) hops.2

/-- Witness for C7 at a concrete run: start at scale 2, rescale to 5; the scale
stays positive. -/
theorem scale_positive_conditional_witness :
    0 < (runOps optScaled [LambOp.justifyOp 5]).scale :=
  scale_positive_conditional.2 optScaled [LambOp.justifyOp 5]
    (by norm_num [optScaled]) ⟨by norm_num, trivial⟩

/-! ### Characterization of the per-parameter loop body -/

/-- A parameter without a gradient is skipped unchanged. -/
theorem stepEntry_no_grad (g : ParamGroup) (scale : ℚ) (hold : ℕ) (env : CommEnv)
    (idx : ℕ) (e : PEntry) (h : e.param.grad = none) :
    stepEntry g scale hold env idx e = (e, idx, none) := by
  simp [stepEntry, h]

/-- A sparse gradient raises before any mutation of the entry. -/
theorem stepEntry_sparse (g : ParamGroup) (scale : ℚ) (hold : ℕ) (env : CommEnv)
    (idx : ℕ) (e : PEntry) (gr : Grad) (h : e.param.grad = some gr)
    (hs : gr.is_sparse = true) :
    stepEntry g scale hold env idx e = (e, idx, some .unsupportedGradientLayout) := by
  simp [stepEntry, h, hs]

/-- Without `"comm"` in the configuration, a dense gradient reaches the
unguarded `config["comm"]` lookup: the entry keeps the mutations already done
(lazy initialization and the `step` increment) and the step raises. -/
theorem stepEntry_no_comm (g : ParamGroup) (scale : ℚ) (hold : ℕ) (env : CommEnv)
    (idx : ℕ) (e : PEntry) (gr : Grad) (h : e.param.grad = some gr)
    (hs : gr.is_sparse = false) (hc : env.comm = false) :
    stepEntry g scale hold env idx e =
      ({ e with state := some (stepInitState e) }, idx, some .missingComm) := by
  simp [stepEntry, h, hs, hc, f_lamb_prepare]

/-- A dense gradient with a communicator is updated without error, consuming
one reduction slot. -/
theorem stepEntry_dense_ok (g : ParamGroup) (scale : ℚ) (hold : ℕ) (env : CommEnv)
    (idx : ℕ) (e : PEntry) (gr : Grad) (h : e.param.grad = some gr)
    (hs : gr.is_sparse = false) (hc : env.comm = true) :
    (stepEntry g scale hold env idx e).2.2 = none ∧
    (stepEntry g scale hold env idx e).2.1 = idx + 1 := by
  simp [stepEntry, h, hs, hc, f_lamb_prepare, f_adam]

/-- With a communicator configured, the only exception the loop body can raise
is the sparse-layout one, and it leaves the offending entry unchanged. -/
theorem stepEntry_err_cases (g : ParamGroup) (scale : ℚ) (hold : ℕ) (env : CommEnv)
    (idx : ℕ) (e : PEntry) (er : StepError) (hc : env.comm = true)
    (h : (stepEntry g scale hold env idx e).2.2 = some er) :
    er = .unsupportedGradientLayout ∧ (stepEntry g scale hold env idx e).1 = e ∧
    ∃ gr, e.param.grad = some gr ∧ gr.is_sparse = true := by
  cases hg : e.param.grad with
  | none => rw [stepEntry_no_grad g scale hold env idx e hg] at h; simp at h
  | some gr =>
    cases hsp : gr.is_sparse with
    | true =>
      rw [stepEntry_sparse g scale hold env idx e gr hg hsp] at h ⊢
      simp at h
      exact ⟨h.symm, rfl, gr, by simp [hg], hsp⟩
    | false =>
      rw [(stepEntry_dense_ok g scale hold env idx e gr hg hsp hc).1] at h
      simp at h

/-- Without a communicator, the loop body returns normally only for parameters
without a gradient. -/
theorem stepEntry_ok_no_comm (g : ParamGroup) (scale : ℚ) (hold : ℕ) (env : CommEnv)
    (idx : ℕ) (e : PEntry) (hc : env.comm = false)
    (h : (stepEntry g scale hold env idx e).2.2 = none) : e.param.grad = none := by
  cases hg : e.param.grad with
  | none => rfl
  | some gr =>
    cases hsp : gr.is_sparse with
    | true => rw [stepEntry_sparse g scale hold env idx e gr hg hsp] at h; simp at h
    | false => rw [stepEntry_no_comm g scale hold env idx e gr hg hsp hc] at h; simp at h

/-! ### The inner parameter loop -/

/-- Unfolding: the inner loop on an empty list. -/
theorem stepParams_nil (g : ParamGroup) (scale : ℚ) (hold : ℕ) (env : CommEnv)
    (idx : ℕ) : stepParams g scale hold env [] idx = ([], idx, none) := rfl

/-- Unfolding: the inner loop stops at a raising head entry. -/
theorem stepParams_cons_err (g : ParamGroup) (scale : ℚ) (hold : ℕ) (env : CommEnv)
    (idx : ℕ) (e : PEntry) (rest : List PEntry) (e1 : PEntry) (j1 : ℕ)
    (er : StepError) (hse : stepEntry g scale hold env idx e = (e1, j1, some er)) :
    stepParams g scale hold env (e :: rest) idx = (e1 :: rest, j1, some er) := by
  simp [stepParams, hse]

/-- Unfolding: the inner loop continues past a non-raising head entry. -/
theorem stepParams_cons_ok (g : ParamGroup) (scale : ℚ) (hold : ℕ) (env : CommEnv)
    (idx : ℕ) (e : PEntry) (rest : List PEntry) (e1 : PEntry) (j1 : ℕ)
    (out2 : List PEntry) (j2 : ℕ) (er2 : Option StepError)
    (hse : stepEntry g scale hold env idx e = (e1, j1, none))
    (hrec : stepParams g scale hold env rest j1 = (out2, j2, er2)) :
    stepParams g scale hold env (e :: rest) idx = (e1 :: out2, j2, er2) := by
  simp [stepParams, hse, hrec]

/-- A successful pass of the inner loop updates the entries pointwise through
the loop body. -/
theorem stepParams_ok_rel (g : ParamGroup) (scale : ℚ) (hold : ℕ) (env : CommEnv) :
    ∀ (l : List PEntry) (idx : ℕ) (out : List PEntry) (idx' : ℕ),
      stepParams g scale hold env l idx = (out, idx', none) →
      List.Forall₂ (fun e e' => ∃ j r, stepEntry g scale hold env j e = (e', r, none))
        l out := by
  intro l
  induction l with
  | nil =>
    intro idx out idx' h
    rw [stepParams_nil] at h
    simp only [Prod.mk.injEq] at h
    rw [← h.1]
    exact List.Forall₂.nil
  | cons e rest ih =>
    intro idx out idx' h
    rcases hse : stepEntry g scale hold env idx e with ⟨e1, j1, er1⟩
    cases er1 with
    | some er =>
      rw [stepParams_cons_err g scale hold env idx e rest e1 j1 er hse] at h
      simp at h
    | none =>
      rcases hrec : stepParams g scale hold env rest j1 with ⟨out2, j2, er2⟩
      rw [stepParams_cons_ok g scale hold env idx e rest e1 j1 out2 j2 er2 hse hrec] at h
      simp only [Prod.mk.injEq] at h
      obtain ⟨h1, -, h3⟩ := h
      rw [h3] at hrec
      rw [← h1]
      exact List.Forall₂.cons ⟨idx, j1, hse⟩ (ih j1 out2 j2 hrec)

/-- Pointwise: a related entry exists in the output for every input entry. -/
theorem forall₂_mem_left {α β : Type} {R : α → β → Prop} :
    ∀ {l : List α} {l' : List β}, List.Forall₂ R l l' →
      ∀ {a : α}, a ∈ l → ∃ b ∈ l', R a b := by
  intro l l' h
  induction h with
  | nil => intro a ha; simp at ha
  | cons hR _ ih =>
    intro a ha
    rcases List.mem_cons.mp ha with rfl | ha'
    · exact ⟨_, List.mem_cons_self .., hR⟩
    · obtain ⟨b, hb, hRb⟩ := ih ha'
      exact ⟨b, List.mem_cons_of_mem _ hb, hRb⟩

/-- With a communicator configured, a failing pass of the inner loop fails on
the sparse-layout error at some entry `b` with a sparse gradient; `b` itself
and every entry after it are returned untouched, while the entries before it
have already been replaced (same count). -/
theorem stepParams_err_decomp (g : ParamGroup) (scale : ℚ) (hold : ℕ)
    (env : CommEnv) (hc : env.comm = true) :
    ∀ (l : List PEntry) (idx : ℕ) (out : List PEntry) (idx' : ℕ) (er : StepError),
      stepParams g scale hold env l idx = (out, idx', some er) →
      er = .unsupportedGradientLayout ∧
      ∃ l1 l1' b l2, l = l1 ++ b :: l2 ∧ out = l1' ++ b :: l2 ∧
        l1'.length = l1.length ∧
        ∃ gr, b.param.grad = some gr ∧ gr.is_sparse = true := by
  intro l
  induction l with
  | nil =>
    intro idx out idx' er h
    rw [stepParams_nil] at h
    simp at h
  | cons e rest ih =>
    intro idx out idx' er h
    rcases hse : stepEntry g scale hold env idx e with ⟨e1, j1, er1⟩
    cases er1 with
    | some er0 =>
      rw [stepParams_cons_err g scale hold env idx e rest e1 j1 er0 hse] at h
      simp only [Prod.mk.injEq, Option.some.injEq] at h
      obtain ⟨h1, -, h3⟩ := h
      obtain ⟨her, he1, gr, hgr, hsp⟩ :=
        stepEntry_err_cases g scale hold env idx e er0 hc (by rw [hse])
      rw [hse] at he1
      simp only at he1
      refine ⟨h3 ▸ her, [], [], e, rest, rfl, ?_, rfl, gr, hgr, hsp⟩
      rw [← h1, he1]
      simp
    | none =>
      rcases hrec : stepParams g scale hold env rest j1 with ⟨out2, j2, er2⟩
      rw [stepParams_cons_ok g scale hold env idx e rest e1 j1 out2 j2 er2 hse hrec] at h
      simp only [Prod.mk.injEq] at h
      obtain ⟨h1, -, h3⟩ := h
      rw [h3] at hrec
      obtain ⟨her, l1, l1', b, l2, hrest, hout2, hlen, hb⟩ :=
        ih j1 out2 j2 er hrec
      refine ⟨her, e :: l1, e1 :: l1', b, l2, by simp [hrest], ?_, by simp [hlen], hb⟩
      rw [← h1, hout2]
      simp

/-- With a communicator configured, the inner loop cannot return normally when
some entry has a sparse gradient. -/
theorem stepParams_err_of_sparse (g : ParamGroup) (scale : ℚ) (hold : ℕ)
    (env : CommEnv) (_hc : env.comm = true) (l : List PEntry) (idx : ℕ)
    (hex : ∃ e ∈ l, ∃ gr, e.param.grad = some gr ∧ gr.is_sparse = true) :
    (stepParams g scale hold env l idx).2.2 ≠ none := by
  intro hnone
  rcases hres : stepParams g scale hold env l idx with ⟨out, ix, er⟩
  rw [hres] at hnone
  simp only at hnone
  rw [hnone] at hres
  obtain ⟨w, hw, gr, hgr, hsp⟩ := hex
  obtain ⟨w', -, j, r, hok⟩ :=
    forall₂_mem_left (stepParams_ok_rel g scale hold env l idx out ix hres) hw
  rw [stepEntry_sparse g scale hold env j w gr hgr hsp] at hok
  simp at hok

/-- Without a communicator, the inner loop cannot return normally when some
entry has a defined gradient. -/
theorem stepParams_err_of_no_comm (g : ParamGroup) (scale : ℚ) (hold : ℕ)
    (env : CommEnv) (hc : env.comm = false) (l : List PEntry) (idx : ℕ)
    (hex : ∃ e ∈ l, e.param.grad ≠ none) :
    (stepParams g scale hold env l idx).2.2 ≠ none := by
  intro hnone
  rcases hres : stepParams g scale hold env l idx with ⟨out, ix, er⟩
  rw [hres] at hnone
  simp only at hnone
  rw [hnone] at hres
  obtain ⟨w, hw, hgr⟩ := hex
  obtain ⟨w', -, j, r, hok⟩ :=
    forall₂_mem_left (stepParams_ok_rel g scale hold env l idx out ix hres) hw
  exact hgr (stepEntry_ok_no_comm g scale hold env j w hc (by rw [hok]))

/-! ### The outer group loop and the step inversion -/

/-- Unfolding: the outer loop on an empty list. -/
theorem stepGroups_nil (scale : ℚ) (hold : ℕ) (env : CommEnv) (idx : ℕ) :
    stepGroups scale hold env [] idx = ([], idx, none) := rfl

/-- Unfolding: the outer loop stops at a raising head group. -/
theorem stepGroups_cons_err (scale : ℚ) (hold : ℕ) (env : CommEnv) (idx : ℕ)
    (g : ParamGroup) (rest : List ParamGroup) (ps : List PEntry) (j1 : ℕ)
    (er : StepError)
    (hsp : stepParams g scale hold env g.params idx = (ps, j1, some er)) :
    stepGroups scale hold env (g :: rest) idx =
      ({ g with params := ps } :: rest, j1, some er) := by
  simp [stepGroups, hsp]

/-- Unfolding: the outer loop continues past a non-raising head group. -/
theorem stepGroups_cons_ok (scale : ℚ) (hold : ℕ) (env : CommEnv) (idx : ℕ)
    (g : ParamGroup) (rest : List ParamGroup) (ps : List PEntry) (j1 : ℕ)
    (out2 : List ParamGroup) (j2 : ℕ) (er2 : Option StepError)
    (hsp : stepParams g scale hold env g.params idx = (ps, j1, none))
    (hrec : stepGroups scale hold env rest j1 = (out2, j2, er2)) :
    stepGroups scale hold env (g :: rest) idx =
      ({ g with params := ps } :: out2, j2, er2) := by
  simp [stepGroups, hsp, hrec]

/-- A successful pass of the outer loop updates the groups pointwise. -/
theorem stepGroups_ok_rel (scale : ℚ) (hold : ℕ) (env : CommEnv) :
    ∀ (gs : List ParamGroup) (idx : ℕ) (out : List ParamGroup) (idx' : ℕ),
      stepGroups scale hold env gs idx = (out, idx', none) →
      List.Forall₂ (groupStepRel scale hold env) gs out := by
  intro gs
  induction gs with
  | nil =>
    intro idx out idx' h
    rw [stepGroups_nil] at h
    simp only [Prod.mk.injEq] at h
    rw [← h.1]
    exact List.Forall₂.nil
  | cons g rest ih =>
    intro idx out idx' h
    rcases hsp : stepParams g scale hold env g.params idx with ⟨ps, j1, er1⟩
    cases er1 with
    | some er =>
      rw [stepGroups_cons_err scale hold env idx g rest ps j1 er hsp] at h
      simp at h
    | none =>
      rcases hrec : stepGroups scale hold env rest j1 with ⟨out2, j2, er2⟩
      rw [stepGroups_cons_ok scale hold env idx g rest ps j1 out2 j2 er2 hsp hrec] at h
      simp only [Prod.mk.injEq] at h
      obtain ⟨h1, -, h3⟩ := h
      rw [h3] at hrec
      rw [← h1]
      exact List.Forall₂.cons
        ⟨ps, rfl, stepParams_ok_rel g scale hold env g.params idx ps j1 hsp⟩
        (ih j1 out2 j2 hrec)

/-- With a communicator configured, a failing pass of the outer loop fails with
the sparse-layout error inside some group `g`, whose parameter list decomposes
around the untouched sparse entry `b`; the groups before `g` have been replaced
(same count) and the groups after `g` are untouched. -/
theorem stepGroups_err_decomp (scale : ℚ) (hold : ℕ) (env : CommEnv)
    (hc : env.comm = true) :
    ∀ (gs : List ParamGroup) (idx : ℕ) (out : List ParamGroup) (idx' : ℕ)
      (er : StepError),
      stepGroups scale hold env gs idx = (out, idx', some er) →
      er = .unsupportedGradientLayout ∧
      ∃ g1 g g1' ps g2, gs = g1 ++ g :: g2 ∧
        out = g1' ++ { g with params := ps } :: g2 ∧ g1'.length = g1.length ∧
        ∃ l1 l1' b l2, g.params = l1 ++ b :: l2 ∧ ps = l1' ++ b :: l2 ∧
          l1'.length = l1.length ∧
          ∃ gr, b.param.grad = some gr ∧ gr.is_sparse = true := by
  intro gs
  induction gs with
  | nil =>
    intro idx out idx' er h
    rw [stepGroups_nil] at h
    simp at h
  | cons g rest ih =>
    intro idx out idx' er h
    rcases hsp : stepParams g scale hold env g.params idx with ⟨ps, j1, er1⟩
    cases er1 with
    | some er0 =>
      rw [stepGroups_cons_err scale hold env idx g rest ps j1 er0 hsp] at h
      simp only [Prod.mk.injEq, Option.some.injEq] at h
      obtain ⟨h1, -, h3⟩ := h
      obtain ⟨her, l1, l1', b, l2, hparams, hps, hlen, hb⟩ :=
        stepParams_err_decomp g scale hold env hc g.params idx ps j1 er0 hsp
      exact ⟨h3 ▸ her, [], g, [], ps, rest, rfl, by rw [← h1]; simp, rfl,
        l1, l1', b, l2, hparams, hps, hlen, hb⟩
    | none =>
      rcases hrec : stepGroups scale hold env rest j1 with ⟨out2, j2, er2⟩
      rw [stepGroups_cons_ok scale hold env idx g rest ps j1 out2 j2 er2 hsp hrec] at h
      simp only [Prod.mk.injEq] at h
      obtain ⟨h1, -, h3⟩ := h
      rw [h3] at hrec
      obtain ⟨her, g1, g0, g1', ps0, g2, hgs, hout2, hglen, hinner⟩ :=
        ih j1 out2 j2 er hrec
      refine ⟨her, g :: g1, g0, { g with params := ps } :: g1', ps0, g2,
        by simp [hgs], ?_, by simp [hglen], hinner⟩
      rw [← h1, hout2]
      simp

/-- With a communicator configured, the outer loop cannot return normally when
some group has an entry with a sparse gradient. -/
theorem stepGroups_err_of_sparse (scale : ℚ) (hold : ℕ) (env : CommEnv)
    (_hc : env.comm = true) (gs : List ParamGroup) (idx : ℕ)
    (hex : ∃ g ∈ gs, ∃ e ∈ g.params, ∃ gr,
      e.param.grad = some gr ∧ gr.is_sparse = true) :
    (stepGroups scale hold env gs idx).2.2 ≠ none := by
  intro hnone
  rcases hres : stepGroups scale hold env gs idx with ⟨out, ix, er⟩
  rw [hres] at hnone
  simp only at hnone
  rw [hnone] at hres
  obtain ⟨g, hg, w, hw, gr, hgr, hsp⟩ := hex
  obtain ⟨g', -, ps, -, hps⟩ :=
    forall₂_mem_left (stepGroups_ok_rel scale hold env gs idx out ix hres) hg
  obtain ⟨w', -, j, r, hok⟩ := forall₂_mem_left hps hw
  rw [stepEntry_sparse g scale hold env j w gr hgr hsp] at hok
  simp at hok

/-- Without a communicator, the outer loop cannot return normally when some
group has an entry with a defined gradient. -/
theorem stepGroups_err_of_no_comm (scale : ℚ) (hold : ℕ) (env : CommEnv)
    (hc : env.comm = false) (gs : List ParamGroup) (idx : ℕ)
    (hex : ∃ g ∈ gs, ∃ e ∈ g.params, e.param.grad ≠ none) :
    (stepGroups scale hold env gs idx).2.2 ≠ none := by
  intro hnone
  rcases hres : stepGroups scale hold env gs idx with ⟨out, ix, er⟩
  rw [hres] at hnone
  simp only at hnone
  rw [hnone] at hres
  obtain ⟨g, hg, w, hw, hgr⟩ := hex
  obtain ⟨g', -, ps, -, hps⟩ :=
    forall₂_mem_left (stepGroups_ok_rel scale hold env gs idx out ix hres) hg
  obtain ⟨w', -, j, r, hok⟩ := forall₂_mem_left hps hw
  exact hgr (stepEntry_ok_no_comm g scale hold env j w hc (by rw [hok]))

/-- Inversion of a successful step: the returned value is the closure's result,
the scalar bookkeeping is as expected, the overflow flag was clear, and the
parameter groups are updated pointwise through the loop body. -/
theorem step_ok_inv (opt : LambOptimizer) (loss : Option ℚ) (env : CommEnv)
    (l : Option ℚ) (st : LambOptimizer) (h : opt.step loss env = .ok l st) :
    l = loss ∧ st.scale = opt.scale ∧ st.hold_steps = opt.hold_steps ∧
    st.steps_since_last_scale = opt.steps_since_last_scale + 1 ∧
    groupOverflow opt env = false ∧
    List.Forall₂ (groupStepRel opt.scale opt.hold_steps env)
      opt.param_groups st.param_groups := by
  unfold LambOptimizer.step at h
  by_cases hov : groupOverflow opt env
  · simp [hov] at h
  · rcases hsg : stepGroups opt.scale opt.hold_steps env opt.param_groups 0 with
      ⟨gs, ix, er⟩
    rw [if_neg hov, hsg] at h
    cases er with
    | some e => simp at h
    | none =>
      simp only [StepResult.ok.injEq] at h
      obtain ⟨hl, hst⟩ := h
      subst hst
      exact ⟨hl.symm, rfl, rfl, rfl, Bool.eq_false_iff.mpr hov,
        stepGroups_ok_rel opt.scale opt.hold_steps env opt.param_groups 0
          gs ix hsg⟩

/-- A step whose update loop raises returns the error together with the state
whose `steps_since_last_scale` is already incremented and whose groups are the
loop's partial output. -/
theorem step_err_eq (opt : LambOptimizer) (loss : Option ℚ) (env : CommEnv)
    (gs : List ParamGroup) (ix : ℕ) (er : StepError)
    (hov : groupOverflow opt env = false)
    (hsg : stepGroups opt.scale opt.hold_steps env opt.param_groups 0 =
      (gs, ix, some er)) :
    opt.step loss env = .err er
      { opt with
          steps_since_last_scale := opt.steps_since_last_scale + 1
          param_groups := gs } := by
  unfold LambOptimizer.step
  rw [hov]
  simp only [Bool.false_eq_true, if_false, hsg]

/-! ### Claim C2 (corrected) -/

/-- Counterexample to C2 as stated: with a dense-gradient parameter ordered
before a sparse-gradient one, the step does raise `UnsupportedGradientLayout`,
but the dense parameter has already been fully updated (its state was
initialized and its `step_count` advanced to 1) while the sparse one was not,
so the step does not abort "without advancing any parameter" and the
all-parameters-advance-together invariant is violated. -/
theorem step_sparse_counterexample :
    optDenseSparse.step none envComm =
      .err .unsupportedGradientLayout
        ⟨[⟨1, 0, 0, 1, 0, [⟨⟨[2], some denseGrad⟩, some ⟨1, [2], [4], [2]⟩⟩,
            sparseEntry]⟩], 2, 1, 0⟩ ∧
    denseEntry.state = none := by
  constructor
  · simp [LambOptimizer.step, stepGroups, stepParams, stepEntry, groupOverflow,
      localOverflow, stepInitState, initState, candidateLR, f_lamb_prepare, f_adam,
      zeros, eps_safety, optDenseSparse, denseSparseGroup, denseEntry, sparseEntry,
      envComm, denseGrad, sparseGrad]
    norm_num
  · rfl

/-- Claim C2 (amended): when the overflow flag is clear, a communicator is
configured, and some parameter with a defined gradient has a sparse-layout
gradient, the step raises `UnsupportedGradientLayout` and aborts at the first
such parameter: that parameter and every parameter after it are left
untouched, but the parameters before it in iteration order have already been
replaced by their updated versions (and `steps_since_last_scale` has already
been incremented), so an aborted step can leave some parameters updated and
others not. -/
theorem step_sparse_aborts_mid_loop (opt : LambOptimizer) (loss : Option ℚ)
    (env : CommEnv) (hc : env.comm = true)
    (hov : groupOverflow opt env = false)
    (hsp : ∃ g ∈ opt.param_groups, ∃ e ∈ g.params, ∃ gr,
      e.param.grad = some gr ∧ gr.is_sparse = true) :
    ∃ st, opt.step loss env = .err .unsupportedGradientLayout st ∧
      st.steps_since_last_scale = opt.steps_since_last_scale + 1 ∧
      ∃ g1 g g1' ps g2, opt.param_groups = g1 ++ g :: g2 ∧
        st.param_groups = g1' ++ { g with params := ps } :: g2 ∧
        g1'.length = g1.length ∧
        ∃ l1 l1' b l2, g.params = l1 ++ b :: l2 ∧ ps = l1' ++ b :: l2 ∧
          l1'.length = l1.length ∧
          ∃ gr, b.param.grad = some gr ∧ gr.is_sparse = true := by
  rcases hsg : stepGroups opt.scale opt.hold_steps env opt.param_groups 0 with
    ⟨gs, ix, er⟩
  cases er with
  | none =>
    exact absurd (by rw [hsg])
      (stepGroups_err_of_sparse opt.scale opt.hold_steps env hc
        opt.param_groups 0 hsp)
  | some er0 =>
    obtain ⟨her, hdecomp⟩ :=
      stepGroups_err_decomp opt.scale opt.hold_steps env hc
        opt.param_groups 0 gs ix er0 hsg
    subst her
    exact ⟨_, step_err_eq opt loss env gs ix _ hov hsg, rfl, hdecomp⟩

/-- Witness for C2 (amended) at the concrete dense-then-sparse optimizer. -/
theorem step_sparse_aborts_mid_loop_witness :
    ∃ st, optDenseSparse.step none envComm =
      .err .unsupportedGradientLayout st ∧
      st.steps_since_last_scale = optDenseSparse.steps_since_last_scale + 1 ∧
      ∃ g1 g g1' ps g2, optDenseSparse.param_groups = g1 ++ g :: g2 ∧
        st.param_groups = g1' ++ { g with params := ps } :: g2 ∧
        g1'.length = g1.length ∧
        ∃ l1 l1' b l2, g.params = l1 ++ b :: l2 ∧ ps = l1' ++ b :: l2 ∧
          l1'.length = l1.length ∧
          ∃ gr, b.param.grad = some gr ∧ gr.is_sparse = true :=
  step_sparse_aborts_mid_loop optDenseSparse none envComm rfl
    (by simp [groupOverflow, localOverflow, optDenseSparse, denseSparseGroup,
      denseEntry, sparseEntry, envComm, denseGrad, sparseGrad])
    ⟨denseSparseGroup, by simp [optDenseSparse], sparseEntry,
      by simp [denseSparseGroup], sparseGrad, rfl, rfl⟩

/-! ### Claim C10 (corrected) -/

/-- Counterexample to C10 as stated: on a configuration without `"comm"` with a
gradient-bearing parameter whose gradient overflows locally, the step aborts at
the (local-only) overflow check and the update loop never reaches the unguarded
`config["comm"]` lookup. -/
theorem no_comm_counterexample :
    optInf2.step none envNoComm = .err .gradientOverflow optInf2 ∧
    (optInf2.step none envNoComm).errOf ≠ some .missingComm := by
  have h : optInf2.step none envNoComm = .err .gradientOverflow optInf2 := by
    simp [LambOptimizer.step, groupOverflow, localOverflow, optInf2, envNoComm,
      infGrad]
  exact ⟨h, by rw [h]; simp [StepResult.errOf]⟩

/-- Claim C10 (amended): without `"comm"` in the configuration the overflow
check is local-only (the MAX-reduce is silently skipped), and a step with at
least one gradient-bearing parameter can never succeed — it aborts either at
the overflow check, or on a sparse gradient, or at the unguarded
`config["comm"]` lookup inside the update loop. -/
theorem no_comm_step_cannot_succeed (opt : LambOptimizer) (loss : Option ℚ)
    (env : CommEnv) (hc : env.comm = false)
    (hgr : ∃ g ∈ opt.param_groups, ∃ e ∈ g.params, e.param.grad ≠ none) :
    groupOverflow opt env = localOverflow opt ∧
    ∀ (l : Option ℚ) (st : LambOptimizer), opt.step loss env ≠ .ok l st := by
  constructor
  · simp [groupOverflow, hc]
  · intro l st h
    obtain ⟨-, -, -, -, -, hrel⟩ := step_ok_inv opt loss env l st h
    obtain ⟨g, hg, w, hw, hgrad⟩ := hgr
    obtain ⟨g', -, hgrel⟩ := forall₂_mem_left hrel hg
    obtain ⟨ps, -, hps⟩ := hgrel
    obtain ⟨w', -, hwrel⟩ := forall₂_mem_left hps hw
    obtain ⟨j, r, hok⟩ := hwrel
    exact hgrad (stepEntry_ok_no_comm g opt.scale opt.hold_steps env j w hc
      (by rw [hok]))

/-- Witness for C10 (amended) at a concrete no-comm configuration with one
finite-gradient parameter. -/
theorem no_comm_step_cannot_succeed_witness :
    groupOverflow optHold envNoComm = localOverflow optHold ∧
    optHold.step none envNoComm ≠ .ok none optHold :=
  ⟨(no_comm_step_cannot_succeed optHold none envNoComm rfl
      ⟨holdGroup, by simp [optHold], denseEntry, by simp [holdGroup],
        by simp [denseEntry]⟩).1,
   (no_comm_step_cannot_succeed optHold none envNoComm rfl
      ⟨holdGroup, by simp [optHold], denseEntry, by simp [holdGroup],
        by simp [denseEntry]⟩).2 none optHold⟩

/-! ### Claim C3 -/

/-- Normal form of the loop body on a dense-gradient entry with a communicator:
the working copy becomes the new master `masterOf`, and the stored state holds
the incremented step count, the prepare kernel's momentum and variance, and the
new master. -/
theorem stepEntry_dense_eq (g : ParamGroup) (scale : ℚ) (hold : ℕ) (env : CommEnv)
    (idx : ℕ) (e : PEntry) (gr : Grad) (hgr : e.param.grad = some gr)
    (hsp : gr.is_sparse = false) (hc : env.comm = true) :
    stepEntry g scale hold env idx e =
      (⟨⟨masterOf g scale hold env idx e gr, some gr⟩,
        some ⟨(stepInitState e).step, (prepOf g scale hold env.rt e gr).1,
          (prepOf g scale hold env.rt e gr).2.1,
          masterOf g scale hold env idx e gr⟩⟩, idx + 1, none) := by
  simp [stepEntry, hgr, hsp, hc, prepOf, lrEffOf, masterOf, f_lamb_prepare, f_adam]

/-- Claim C3: for every parameter updated in a successful pass of the update
loop, the effective learning rate applied to it is exactly
`lr_eff_spec = candidate_lr * sqrt(numerator / (denominator + 1e-10))`, where
`candidateLR` is 0 when the incremented `step_count` is at most `hold_steps`
and the group's `lr` otherwise, and where the numerator and denominator are the
SUM-reductions (local partial sum plus the other workers' contribution) of the
prepare kernel's outputs: the new master copy moves from the old one by
`lr_eff_spec` times the update direction, element-wise. -/
theorem effective_lr_formula (g : ParamGroup) (scale : ℚ) (hold : ℕ)
    (env : CommEnv) (idx : ℕ) (e : PEntry) (gr : Grad)
    (hgr : e.param.grad = some gr) (hsp : gr.is_sparse = false)
    (hc : env.comm = true) :
    stepEntry g scale hold env idx e =
      (⟨⟨List.zipWith (fun x ui => x -
            lr_eff_spec env.rt (candidateLR g hold e)
              ((prepOf g scale hold env.rt e gr).2.2.2.1 + (env.others idx).1)
              ((prepOf g scale hold env.rt e gr).2.2.2.2 + (env.others idx).2) * ui)
          (stepInitState e).param_fp32 (prepOf g scale hold env.rt e gr).2.2.1,
        some gr⟩,
        some ⟨(stepInitState e).step, (prepOf g scale hold env.rt e gr).1,
          (prepOf g scale hold env.rt e gr).2.1,
          List.zipWith (fun x ui => x -
            lr_eff_spec env.rt (candidateLR g hold e)
              ((prepOf g scale hold env.rt e gr).2.2.2.1 + (env.others idx).1)
              ((prepOf g scale hold env.rt e gr).2.2.2.2 + (env.others idx).2) * ui)
          (stepInitState e).param_fp32 (prepOf g scale hold env.rt e gr).2.2.1⟩⟩,
       idx + 1, none) := by
  rw [stepEntry_dense_eq g scale hold env idx e gr hgr hsp hc]
  rfl

/-- Witness for C3 at the concrete dense entry of `optHold`'s group. -/
theorem effective_lr_formula_witness :
    stepEntry holdGroup 2 1 envComm 0 denseEntry =
      (⟨⟨List.zipWith (fun x ui => x -
            lr_eff_spec envComm.rt (candidateLR holdGroup 1 denseEntry)
              ((prepOf holdGroup 2 1 envComm.rt denseEntry denseGrad).2.2.2.1 +
                (envComm.others 0).1)
              ((prepOf holdGroup 2 1 envComm.rt denseEntry denseGrad).2.2.2.2 +
                (envComm.others 0).2) * ui)
          (stepInitState denseEntry).param_fp32
          (prepOf holdGroup 2 1 envComm.rt denseEntry denseGrad).2.2.1,
        some denseGrad⟩,
        some ⟨(stepInitState denseEntry).step,
          (prepOf holdGroup 2 1 envComm.rt denseEntry denseGrad).1,
          (prepOf holdGroup 2 1 envComm.rt denseEntry denseGrad).2.1,
          List.zipWith (fun x ui => x -
            lr_eff_spec envComm.rt (candidateLR holdGroup 1 denseEntry)
              ((prepOf holdGroup 2 1 envComm.rt denseEntry denseGrad).2.2.2.1 +
                (envComm.others 0).1)
              ((prepOf holdGroup 2 1 envComm.rt denseEntry denseGrad).2.2.2.2 +
                (envComm.others 0).2) * ui)
          (stepInitState denseEntry).param_fp32
          (prepOf holdGroup 2 1 envComm.rt denseEntry denseGrad).2.2.1⟩⟩,
       0 + 1, none) :=
  effective_lr_formula holdGroup 2 1 envComm 0 denseEntry denseGrad rfl rfl rfl

/-! ### Claim C8 -/

/-- Pointwise: a `Forall₂` relation holds at every zipped pair. -/
theorem forall₂_zip_mem {α β : Type} {R : α → β → Prop} :
    ∀ {l : List α} {l' : List β}, List.Forall₂ R l l' →
      ∀ {a : α} {b : β}, (a, b) ∈ l.zip l' → R a b := by
  intro l l' h
  induction h with
  | nil => intro a b hab; simp at hab
  | cons hR _ ih =>
    intro a b hab
    rw [List.zip_cons_cons] at hab
    rcases List.mem_cons.mp hab with heq | h'
    · cases heq; exact hR
    · exact ih h'

/-- The length and master-synchronization facts provided by `entryWF` for a
gradient-bearing entry, stated through the lazily initialized state. -/
theorem entryWF_facts (e : PEntry) (gr : Grad) (hgr : e.param.grad = some gr)
    (hwf : entryWF e = true) :
    gr.vals.length = e.param.data.length ∧
    (initState e).exp_avg.length = e.param.data.length ∧
    (initState e).exp_avg_sq.length = e.param.data.length ∧
    (initState e).param_fp32 = e.param.data := by
  unfold entryWF at hwf
  rw [hgr] at hwf
  cases hst : e.state with
  | none =>
    rw [hst] at hwf
    simp only [Bool.and_true, beq_iff_eq] at hwf
    exact ⟨hwf, by simp [initState, hst, zeros], by simp [initState, hst, zeros],
      by simp [initState, hst]⟩
  | some st =>
    rw [hst] at hwf
    simp only [Bool.and_eq_true, beq_iff_eq] at hwf
    obtain ⟨h1, h2, h3, h4⟩ := hwf
    exact ⟨h1, by simp [initState, hst, h2], by simp [initState, hst, h3],
      by simp [initState, hst, h4]⟩

/-- For a well-formed entry the prepare kernel's update direction has the
parameter's length. -/
theorem prepOf_u_length (g : ParamGroup) (scale : ℚ) (hold : ℕ) (rt : ℚ → ℚ)
    (e : PEntry) (gr : Grad)
    (hg : gr.vals.length = e.param.data.length)
    (hm : (initState e).exp_avg.length = e.param.data.length)
    (hv : (initState e).exp_avg_sq.length = e.param.data.length)
    (hmaster : (initState e).param_fp32 = e.param.data) :
    (prepOf g scale hold rt e gr).2.2.1.length = e.param.data.length := by
  simp only [prepOf, f_lamb_prepare, List.length_zipWith, List.length_map,
    stepInitState]
  rw [hm, hv, hmaster, hg]
  simp

/-- Inside the hold window the loop body freezes the parameter: the effective
learning rate collapses to 0, so the master copy and the working copy keep
their values, while momentum and variance are still replaced by the prepare
kernel's updated values. -/
theorem stepEntry_hold (g : ParamGroup) (scale : ℚ) (hold : ℕ) (env : CommEnv)
    (j r : ℕ) (e e' : PEntry) (gr : Grad)
    (hok : stepEntry g scale hold env j e = (e', r, none))
    (hgr : e.param.grad = some gr) (hsp : gr.is_sparse = false)
    (hwf : entryWF e = true) (hhold : (stepInitState e).step ≤ hold) :
    e'.param.data = e.param.data ∧
    ∃ st', e'.state = some st' ∧
      st'.param_fp32 = (initState e).param_fp32 ∧
      st'.step = (stepInitState e).step ∧
      st'.exp_avg = List.zipWith (fun mi gi => g.beta1 * mi + (1 - g.beta1) * gi)
        (stepInitState e).exp_avg (gr.vals.map (fun x => x / scale)) ∧
      st'.exp_avg_sq = List.zipWith
        (fun vi gi => g.beta2 * vi + (1 - g.beta2) * gi ^ 2)
        (stepInitState e).exp_avg_sq (gr.vals.map (fun x => x / scale)) := by
  obtain ⟨hg, hm, hv, hmaster⟩ := entryWF_facts e gr hgr hwf
  cases hc : env.comm with
  | false =>
    rw [stepEntry_no_comm g scale hold env j e gr hgr hsp hc] at hok
    simp at hok
  | true =>
    rw [stepEntry_dense_eq g scale hold env j e gr hgr hsp hc] at hok
    simp only [Prod.mk.injEq] at hok
    obtain ⟨he', -, -⟩ := hok
    have hcand : candidateLR g hold e = 0 := by simp [candidateLR, hhold]
    have hlr : lrEffOf g scale hold env j e gr = 0 := by
      unfold lrEffOf
      rw [hcand, zero_mul]
    have hulen : (stepInitState e).param_fp32.length ≤
        (prepOf g scale hold env.rt e gr).2.2.1.length := by
      have hu := prepOf_u_length g scale hold env.rt e gr hg hm hv hmaster
      have hp : (stepInitState e).param_fp32.length = e.param.data.length := by
        show (initState e).param_fp32.length = _
        rw [hmaster]
      rw [hu, hp]
    have hmeq : masterOf g scale hold env j e gr = (stepInitState e).param_fp32 := by
      unfold masterOf
      exact zipWith_left_eval _ (fun a b => by rw [hlr]; ring) _ _ hulen
    refine ⟨?_, ⟨(stepInitState e).step, (prepOf g scale hold env.rt e gr).1,
      (prepOf g scale hold env.rt e gr).2.1, masterOf g scale hold env j e gr⟩,
      by rw [← he'], ?_, rfl, ?_, ?_⟩
    · rw [← he']
      simp only
      rw [hmeq]
      exact hmaster
    · simp only
      rw [hmeq]
      rfl
    · rfl
    · rfl

/-- Claim C8: in a successful step, every parameter whose incremented
`step_count` is at most `hold_steps` keeps its master copy and its working
value unchanged (the candidate learning rate is forced to 0), while its
momentum and variance are still updated by the step's moment formulas. -/
theorem step_hold_window (opt : LambOptimizer) (loss : Option ℚ) (env : CommEnv)
    (l : Option ℚ) (st : LambOptimizer) (h : opt.step loss env = .ok l st)
    (g g' : ParamGroup) (hg : (g, g') ∈ opt.param_groups.zip st.param_groups)
    (e e' : PEntry) (he : (e, e') ∈ g.params.zip g'.params)
    (gr : Grad) (hgr : e.param.grad = some gr) (hsp : gr.is_sparse = false)
    (hwf : entryWF e = true)
    (hhold : (stepInitState e).step ≤ opt.hold_steps) :
    e'.param.data = e.param.data ∧
    ∃ st', e'.state = some st' ∧
      st'.param_fp32 = (initState e).param_fp32 ∧
      st'.step = (stepInitState e).step ∧
      st'.exp_avg = List.zipWith (fun mi gi => g.beta1 * mi + (1 - g.beta1) * gi)
        (stepInitState e).exp_avg (gr.vals.map (fun x => x / opt.scale)) ∧
      st'.exp_avg_sq = List.zipWith
        (fun vi gi => g.beta2 * vi + (1 - g.beta2) * gi ^ 2)
        (stepInitState e).exp_avg_sq (gr.vals.map (fun x => x / opt.scale)) := by
  obtain ⟨-, -, -, -, -, hrel⟩ := step_ok_inv opt loss env l st h
  obtain ⟨ps, hg'eq, hps⟩ := forall₂_zip_mem hrel hg
  subst hg'eq
  obtain ⟨j, r, hok⟩ := forall₂_zip_mem hps he
  exact stepEntry_hold g opt.scale opt.hold_steps env j r e e' gr hok hgr hsp
    hwf hhold

/-- Witness for C8 at `optHold` (`hold_steps = 1`, fresh parameter, so the
incremented step count 1 is inside the hold window): the master and working
values stay `[2]` while momentum and variance move. -/
theorem step_hold_window_witness :
    (⟨⟨[2], some denseGrad⟩, some ⟨1, [2], [4], [2]⟩⟩ : PEntry).param.data =
      denseEntry.param.data ∧
    ∃ st', (⟨⟨[2], some denseGrad⟩, some ⟨1, [2], [4], [2]⟩⟩ : PEntry).state =
        some st' ∧
      st'.param_fp32 = (initState denseEntry).param_fp32 ∧
      st'.step = (stepInitState denseEntry).step ∧
      st'.exp_avg = List.zipWith
        (fun mi gi => holdGroup.beta1 * mi + (1 - holdGroup.beta1) * gi)
        (stepInitState denseEntry).exp_avg
        (denseGrad.vals.map (fun x => x / optHold.scale)) ∧
      st'.exp_avg_sq = List.zipWith
        (fun vi gi => holdGroup.beta2 * vi + (1 - holdGroup.beta2) * gi ^ 2)
        (stepInitState denseEntry).exp_avg_sq
        (denseGrad.vals.map (fun x => x / optHold.scale)) :=
  step_hold_window optHold none envComm none optHoldStepped
    (by
      simp [LambOptimizer.step, stepGroups, stepParams, stepEntry, groupOverflow,
        localOverflow, stepInitState, initState, candidateLR, f_lamb_prepare, f_adam,
        zeros, eps_safety, optHold, optHoldStepped, holdGroup, denseEntry, envComm,
        denseGrad]
      norm_num)
    holdGroup ⟨1, 0, 0, 1, 0, [⟨⟨[2], some denseGrad⟩, some ⟨1, [2], [4], [2]⟩⟩]⟩
    (by simp [optHold, optHoldStepped])
    denseEntry (⟨⟨[2], some denseGrad⟩, some ⟨1, [2], [4], [2]⟩⟩ : PEntry)
    (by simp [holdGroup])
    denseGrad rfl rfl (by simp [entryWF, denseEntry, denseGrad])
    (by simp [stepInitState, initState, denseEntry, optHold])

end BMTrain
